import Mathlib

/-!
# Verification of ESMValTool diagnostic and preprocessing routines

Shallow embedding of selected routines of the ESMValTool repository
(preprocessor derivation of gtfgco2, the clouds_ecs lat-lon grouping
statistics, the ERA5 monthly CMORizer, and the MLR diagnostic helpers)
together with proofs of the specified properties.

Conventions of the embedding:
* numpy / iris floating point data is modelled over exact fields
  (rationals or reals); machine rounding is outside the scope of the
  properties treated here, which are algebraic identities and
  control-flow facts.
* behaviour of external libraries (iris, cf_units, sklearn, lime) that
  the code merely calls is passed in as an explicit parameter of the
  embedded function, so every theorem states what the repository code
  does for any behaviour of the library.
* Python exceptions are modelled with Except.
-/

namespace ESMValTool

/-! ## clouds_ecs/group_lat_lon.py

Embedding of area_weighted_mean, calculate_bias and calculate_rmsd.
A cube already regridded to a common grid is modelled by its cell
values indexed by a finite index set of grid cells; the cell weights
produced by iris.analysis.cartography.area_weights are a parameter.
The iris collapsed MEAN with weights is the weighted arithmetic mean
sum (w * x) / sum w, and cube arithmetic is pointwise.
-/

namespace GroupLatLon

/-- A gridded cube on `n` cells: pointwise data plus its attribute
dictionary (modelled opaquely as a string). -/
structure Cube (n : ℕ) where
  data : Fin n → ℝ
  attributes : String

/-- A cube collapsed over latitude and longitude: a single value plus
attributes. -/
structure ScalarCube where
  value : ℝ
  attributes : String

/-- Pointwise cube subtraction (iris cube arithmetic). -/
def cubeSub {n : ℕ} (a b : Cube n) : Cube n :=
  ⟨fun i => a.data i - b.data i, a.attributes⟩

/-- Pointwise square of a cube, the iris meaning of diff ** 2. -/
def cubeSq {n : ℕ} (a : Cube n) : Cube n :=
  ⟨fun i => a.data i ^ 2, a.attributes⟩

/-- area_weighted_mean: collapse over longitude and latitude with
iris.analysis.MEAN and the area weights, i.e. the weighted arithmetic
mean of the cell values. -/
noncomputable def area_weighted_mean {n : ℕ} (w : Fin n → ℝ) (cube : Cube n) : ScalarCube :=
  ⟨(∑ i, w i * cube.data i) / (∑ i, w i), cube.attributes⟩

/-- calculate_bias: the area weighted mean of model minus observation,
with the attributes of the model cube. -/
noncomputable def calculate_bias {n : ℕ} (w : Fin n → ℝ) (model_cube obs_cube : Cube n) :
    ScalarCube :=
  let diff := cubeSub model_cube obs_cube
  let bias := area_weighted_mean w diff
  ⟨bias.value, model_cube.attributes⟩

/-- calculate_rmsd: the area weighted mean of the squared difference,
raised to the power 0.5 (Python ** 0.5, real exponentiation), with the
attributes of the model cube. -/
noncomputable def calculate_rmsd {n : ℕ} (w : Fin n → ℝ) (model_cube obs_cube : Cube n) :
    ScalarCube :=
  let diff := cubeSub model_cube obs_cube
  let rmsd := (area_weighted_mean w (cubeSq diff)).value ^ ((1 : ℝ) / 2)
  ⟨rmsd, model_cube.attributes⟩

end GroupLatLon

end ESMValTool

namespace ESMValTool

open GroupLatLon in
/-- C2: for model and observation cubes on the same grid,
calculate_bias returns the area-weighted global mean of the pointwise
difference model minus observation, and calculate_rmsd returns the
square root of the area-weighted global mean of the squared
difference. -/
theorem c2_bias_and_rmsd {n : ℕ} (w : Fin n → ℝ) (model_cube obs_cube : Cube n) :
    (calculate_bias w model_cube obs_cube).value =
      (∑ i, w i * (model_cube.data i - obs_cube.data i)) / (∑ i, w i) ∧
    (calculate_rmsd w model_cube obs_cube).value =
      Real.sqrt ((∑ i, w i * (model_cube.data i - obs_cube.data i) ^ 2) /
        (∑ i, w i)) := by
  constructor
  · rfl
  · show (area_weighted_mean w (cubeSq (cubeSub model_cube obs_cube))).value
        ^ ((1 : ℝ) / 2) = _
    rw [Real.sqrt_eq_rpow]
    rfl

end ESMValTool

namespace ESMValTool

/-! ## diag_scripts/mlr/models/__init__.py : dataset and cube checks

Embedding of MLRModel._check_cube_dimensions and
MLRModel._check_dataset. Only the raising behaviour is modelled as
Except; the branches of the source that merely emit log messages
(coordinate comparisons in _check_cube_dimensions, the info message
for ignored missing features) return successfully, exactly as the
source returns without raising there.
-/

namespace MLRModelChecks

/-- The shape of a cube, one entry per dimension (numpy shape tuple). -/
abbrev Shape := List ℕ

/-- _check_cube_dimensions: with accept_only_scalar_data the shape
must be () or (1,); otherwise, with a reference cube present, the
shape must equal the reference shape. All later coordinate
comparisons of the source only log warnings and never raise. -/
def checkCubeDimensions (acceptOnlyScalarData : Bool) (shape : Shape)
    (refShape : Option Shape) : Except String Unit :=
  if acceptOnlyScalarData then
    if shape ∉ ([[], [1]] : List Shape) then
      .error "Expected only cubes with shapes () or (1,)"
    else
      .ok ()
  else
    match refShape with
    | none => .ok ()
    | some r =>
      if shape ≠ r then
        .error "Expected cubes with the reference shape"
      else
        .ok ()

/-- A dataset metadata dictionary, restricted to the keys
_check_dataset reads. -/
structure Dataset where
  tag : String
  var_type : String
  units : String
  filename : String
deriving DecidableEq, Repr

/-- Modelled from the spec: select_metadata of
esmvaltool.diag_scripts.shared is not under src/; following the
specification text about matching datasets by attributes, it returns
exactly the datasets whose attributes equal the given tag and
var_type. -/
def select_metadata (datasets : List Dataset) (tag var_type : String) :
    List Dataset :=
  datasets.filter fun d => d.tag == tag && d.var_type == var_type

/-- _check_dataset. The cf_units comparison Unit(a) != Unit(b) is
modelled by the parameter uEq comparing the expected unit with the
declared unit string; labelUnits and featuresUnits stand for
self.label_units and self.features_units. -/
def checkDataset (uEq : String → String → Bool)
    (allowMissingFeatures : Bool) (labelUnits : String)
    (featuresUnits : String → String) (datasets : List Dataset)
    (var_type tag : String) : Except String (Option Dataset) :=
  match select_metadata datasets tag var_type with
  | [] =>
    if var_type == "prediction_input_error" then .ok none
    else if var_type == "prediction_reference" then .ok none
    else if var_type == "label" then .error "Label not found"
    else if !allowMissingFeatures then
      .error "not found, use allow_missing_features to ignore this"
    else .ok none
  | [d] =>
    let units := if var_type == "label" then labelUnits else featuresUnits tag
    if !uEq units d.units then
      .error "unexpected units"
    else .ok (some d)
  | _ => .error "not unique"

/-- True exactly when the computation raised (a ValueError of the
source). -/
def raises {α : Type} : Except String α → Bool
  | .error _ => true
  | .ok _ => false

end MLRModelChecks

end ESMValTool

namespace ESMValTool

open MLRModelChecks in
/-- C6: with accept_only_scalar_data set, a cube whose shape is
neither () nor (1,) raises ValueError and one with such a shape does
not; without it, given a reference cube, a cube whose shape differs
from the reference raises and a cube with matching shape never
raises. -/
theorem c6_check_cube_dimensions (shape : Shape) :
    (∀ refShape, shape ≠ [] → shape ≠ [1] →
      raises (checkCubeDimensions true shape refShape) = true) ∧
    (∀ refShape, (shape = [] ∨ shape = [1]) →
      raises (checkCubeDimensions true shape refShape) = false) ∧
    (∀ r : Shape, shape ≠ r →
      raises (checkCubeDimensions false shape (some r)) = true) ∧
    (∀ r : Shape, shape = r →
      raises (checkCubeDimensions false shape (some r)) = false) := by
  refine ⟨fun refShape h1 h2 => ?_, fun refShape h => ?_,
    fun r h => ?_, fun r h => ?_⟩
  · simp [checkCubeDimensions, raises, h1, h2]
  · rcases h with h | h <;> simp [checkCubeDimensions, raises, h]
  · simp [checkCubeDimensions, raises, h]
  · simp [checkCubeDimensions, raises, h]

open MLRModelChecks in
/-- Witness for C6 at concrete shapes: (2,3) raises against reference
(2,2) and under accept_only_scalar_data, while (1,) passes both. -/
theorem c6_check_cube_dimensions_witness :
    raises (checkCubeDimensions true [2, 3] none) = true ∧
    raises (checkCubeDimensions true [1] none) = false ∧
    raises (checkCubeDimensions false [2, 3] (some [2, 2])) = true ∧
    raises (checkCubeDimensions false [2, 2] (some [2, 2])) = false :=
  ⟨(c6_check_cube_dimensions [2, 3]).1 none (by decide) (by decide),
   (c6_check_cube_dimensions [1]).2.1 none (Or.inr rfl),
   (c6_check_cube_dimensions [2, 3]).2.2.1 [2, 2] (by decide),
   (c6_check_cube_dimensions [2, 2]).2.2.2 [2, 2] rfl⟩

end ESMValTool

namespace ESMValTool

open MLRModelChecks in
/-- C5: within a group, more than one dataset matching a
(var_type, tag) pair raises ValueError; a unique match whose declared
units differ from the expected label or feature units raises
ValueError; a missing label raises ValueError; a missing feature
raises ValueError exactly when allow_missing_features is not set. -/
theorem c5_check_dataset (uEq : String → String → Bool)
    (allowMissingFeatures : Bool) (labelUnits : String)
    (featuresUnits : String → String) (datasets : List MLRModelChecks.Dataset)
    (var_type tag : String) :
    (2 ≤ (select_metadata datasets tag var_type).length →
      raises (checkDataset uEq allowMissingFeatures labelUnits featuresUnits
        datasets var_type tag) = true) ∧
    (∀ d, select_metadata datasets tag var_type = [d] →
      uEq (if var_type == "label" then labelUnits else featuresUnits tag)
          d.units = false →
      raises (checkDataset uEq allowMissingFeatures labelUnits featuresUnits
        datasets var_type tag) = true) ∧
    (var_type = "label" → select_metadata datasets tag var_type = [] →
      raises (checkDataset uEq allowMissingFeatures labelUnits featuresUnits
        datasets var_type tag) = true) ∧
    (var_type = "feature" → select_metadata datasets tag var_type = [] →
      (raises (checkDataset uEq allowMissingFeatures labelUnits featuresUnits
        datasets var_type tag) = true ↔ allowMissingFeatures = false)) := by
  refine ⟨fun hlen => ?_, fun d hsel hunits => ?_, fun hvt hsel => ?_,
    fun hvt hsel => ?_⟩
  · rcases h : select_metadata datasets tag var_type with _ | ⟨d, _ | ⟨e, t⟩⟩ <;>
      rw [h] at hlen
    · simp at hlen
    · simp at hlen
    · simp only [checkDataset]
      rw [h]
      rfl
  · simp only [checkDataset]
    rw [hsel]
    simp only [beq_iff_eq] at hunits
    simp [hunits, raises]
  · subst hvt
    simp only [checkDataset]
    rw [hsel]
    rfl
  · subst hvt
    simp only [checkDataset]
    rw [hsel]
    cases allowMissingFeatures <;> simp [raises]

open MLRModelChecks in
/-- Witness for C5 on concrete datasets: a duplicated feature, a
feature with wrong units, a missing label and a missing feature with
and without allow_missing_features. -/
theorem c5_check_dataset_witness :
    (2 ≤ (select_metadata
        [⟨"tas", "feature", "K", "a.nc"⟩, ⟨"tas", "feature", "K", "b.nc"⟩]
        "tas" "feature").length ∧
      raises (checkDataset (fun a b => a == b) false "K" (fun _ => "K")
        [⟨"tas", "feature", "K", "a.nc"⟩, ⟨"tas", "feature", "K", "b.nc"⟩]
        "feature" "tas") = true) ∧
    (raises (checkDataset (fun a b => a == b) false "K" (fun _ => "K")
        [⟨"tas", "feature", "m", "a.nc"⟩] "feature" "tas") = true) ∧
    (raises (checkDataset (fun a b => a == b) false "K" (fun _ => "K")
        ([] : List MLRModelChecks.Dataset) "label" "tas") = true) ∧
    (raises (checkDataset (fun a b => a == b) false "K" (fun _ => "K")
        ([] : List MLRModelChecks.Dataset) "feature" "tas") = true) ∧
    (raises (checkDataset (fun a b => a == b) true "K" (fun _ => "K")
        ([] : List MLRModelChecks.Dataset) "feature" "tas") = false) := by
  refine ⟨⟨by decide, ?_⟩, ?_, ?_, ?_, ?_⟩
  · exact (c5_check_dataset (fun a b => a == b) false "K" (fun _ => "K")
      [⟨"tas", "feature", "K", "a.nc"⟩, ⟨"tas", "feature", "K", "b.nc"⟩]
      "feature" "tas").1 (by decide)
  · exact (c5_check_dataset (fun a b => a == b) false "K" (fun _ => "K")
      [⟨"tas", "feature", "m", "a.nc"⟩] "feature" "tas").2.1
      ⟨"tas", "feature", "m", "a.nc"⟩ (by decide) (by decide)
  · exact (c5_check_dataset (fun a b => a == b) false "K" (fun _ => "K")
      [] "label" "tas").2.2.1 rfl (by decide)
  · exact ((c5_check_dataset (fun a b => a == b) false "K" (fun _ => "K")
      [] "feature" "tas").2.2.2 rfl (by decide)).mpr rfl
  · have h := ((c5_check_dataset (fun a b => a == b) true "K" (fun _ => "K")
      [] "feature" "tas").2.2.2 rfl (by decide))
    cases hr : raises (checkDataset (fun a b => a == b) true "K" (fun _ => "K")
        ([] : List MLRModelChecks.Dataset) "feature" "tas")
    · rfl
    · exact absurd (h.mp hr) (by decide)

end ESMValTool

namespace ESMValTool

/-! ## diag_scripts/mlr/models/__init__.py : pipeline construction

Embedding of MLRModel._create_pipeline and
MLRModel._remove_missing_features. The sklearn / xgboost objects the
source instantiates are modelled by the inductive SkComponent, which
records the class and the constructor arguments the source passes. -/

namespace MLRPipeline

/-- An ML component instantiated by _create_pipeline, with the
constructor arguments the source passes. advancedTTR is
mlr.AdvancedTransformedTargetRegressor, the repository subclass of
the external TransformedTargetRegressor, wrapping a transformer and
the final regressor. externalRegressor stands for the instance
self._CLF_TYPE(**final_parameters) of the external library regressor
class. -/
inductive SkComponent where
  | columnTransformer (inner : Option SkComponent) (idx : List ℕ)
  | simpleImputer (strategy : String)
  | standardScaler (withMean withStd : Bool)
  | pcaTransform
  | externalRegressor
  | advancedTTR (transformer regressor : SkComponent)
deriving Repr

/-- Which of the instantiated components are classes of the external
ML libraries (sklearn.compose, sklearn.impute, sklearn.preprocessing,
sklearn.decomposition, and the configured regressor class), as
opposed to the repository wrapper class AdvancedTransformedTargetRegressor. -/
def fromExternalLibrary : SkComponent → Bool
  | .columnTransformer _ _ => true
  | .simpleImputer _ => true
  | .standardScaler _ _ => true
  | .pcaTransform => true
  | .externalRegressor => true
  | .advancedTTR _ _ => false

/-- _create_pipeline: the ordered list of (name, component) steps the
source appends, as a function of imputation_strategy,
standardize_data, pca and the numerical feature indices. -/
def createPipelineSteps (imputationStrategy : String)
    (standardizeData pcaOpt : Bool) (numericalIdx : List ℕ) :
    List (String × SkComponent) :=
  [("pandas_to_numpy_converter", SkComponent.columnTransformer none [])]
  ++ (if imputationStrategy ≠ "remove" then
        [("imputer", SkComponent.simpleImputer imputationStrategy)] else [])
  ++ (if standardizeData then
        [("x_scaler", SkComponent.columnTransformer
            (some (SkComponent.standardScaler true true)) numericalIdx)]
      else [])
  ++ (if pcaOpt then
        [("pca", SkComponent.columnTransformer
            (some SkComponent.pcaTransform) numericalIdx)]
      else [])
  ++ [("final", SkComponent.advancedTTR
        (SkComponent.standardScaler standardizeData standardizeData)
        SkComponent.externalRegressor)]

/-- Boolean-mask row selection frame[~mask] of pandas. -/
def filterByMask {α : Type} (mask : List Bool) (l : List α) : List α :=
  ((l.zip mask).filter fun q => !q.2).map Prod.fst

/-- _remove_missing_features: with imputation_strategy equal to
remove, drop every row whose features contain a missing value from
x_data and y_data; otherwise return the data unchanged. A cell of the
feature table is Option-valued, none being a missing (NaN) entry. -/
def removeMissingFeatures (imputationStrategy : String)
    (xData : List (List (Option ℚ))) (yData : List ℚ) :
    List (List (Option ℚ)) × List ℚ :=
  if imputationStrategy ≠ "remove" then (xData, yData)
  else
    let mask := xData.map fun row => row.any fun v => v.isNone
    (filterByMask mask xData, filterByMask mask yData)

theorem filterByMask_map_self {α : Type} (p : α → Bool) (l : List α) :
    filterByMask (l.map p) l = l.filter fun a => !p a := by
  induction l with
  | nil => rfl
  | cons a t ih =>
    simp only [filterByMask, List.map_cons, List.zip_cons_cons,
      List.filter_cons] at ih ⊢
    cases h : p a <;> simp [h, ih, filterByMask]

theorem filterByMask_map_zip {α β : Type} (p : α → Bool) (x : List α)
    (y : List β) :
    filterByMask (x.map p) y =
      ((x.zip y).filter fun q => !p q.1).map Prod.snd := by
  induction x generalizing y with
  | nil => cases y <;> rfl
  | cons a t ih =>
    cases y with
    | nil => rfl
    | cons b u =>
      simp only [filterByMask, List.map_cons, List.zip_cons_cons,
        List.filter_cons] at ih ⊢
      cases h : p a <;> simp [h, ih, filterByMask]

end MLRPipeline

end ESMValTool

namespace ESMValTool

open MLRPipeline in
/-- C8: the pipeline steps are, in order: the pandas-to-numpy
converter; an imputer exactly when imputation_strategy is not remove
(with remove, rows with missing feature values are dropped from the
data instead); a standard scaler over the numerical features when
standardize_data is set; a PCA over the numerical features when pca
is set; and a transformed-target regressor wrapping the final
regressor — the imputation, scaling, PCA and regression components
all being instances of external ML library classes. -/
theorem c8_create_pipeline (strategy : String) (std pcaOpt : Bool)
    (idx : List ℕ) (x : List (List (Option ℚ))) (y : List ℚ) :
    (((createPipelineSteps strategy std pcaOpt idx).map Prod.fst).Sublist
      ["pandas_to_numpy_converter", "imputer", "x_scaler", "pca", "final"]) ∧
    ((createPipelineSteps strategy std pcaOpt idx).head? =
      some ("pandas_to_numpy_converter", .columnTransformer none [])) ∧
    ((createPipelineSteps strategy std pcaOpt idx).getLast? =
      some ("final", .advancedTTR (.standardScaler std std)
        .externalRegressor)) ∧
    (("imputer", SkComponent.simpleImputer strategy) ∈
        createPipelineSteps strategy std pcaOpt idx ↔ strategy ≠ "remove") ∧
    (("x_scaler", SkComponent.columnTransformer
        (some (.standardScaler true true)) idx) ∈
        createPipelineSteps strategy std pcaOpt idx ↔ std = true) ∧
    (("pca", SkComponent.columnTransformer (some .pcaTransform) idx) ∈
        createPipelineSteps strategy std pcaOpt idx ↔ pcaOpt = true) ∧
    (∀ nm c, (nm, c) ∈ createPipelineSteps strategy std pcaOpt idx →
      nm ≠ "final" → fromExternalLibrary c = true) ∧
    fromExternalLibrary SkComponent.externalRegressor = true ∧
    (strategy = "remove" → removeMissingFeatures strategy x y =
      (x.filter fun row => !(row.any fun v => v.isNone),
       ((x.zip y).filter fun q =>
          !(q.1.any fun v => v.isNone)).map Prod.snd)) ∧
    (strategy ≠ "remove" → removeMissingFeatures strategy x y = (x, y)) := by
  by_cases hs : strategy = "remove" <;>
    cases std <;> cases pcaOpt <;>
      refine ⟨?_, ?_, ?_, ?_, ?_, ?_, ?_, rfl, ?_, ?_⟩ <;>
        simp_all [createPipelineSteps, removeMissingFeatures,
          filterByMask_map_self, filterByMask_map_zip, List.getLast?] <;>
          first
            | decide
            | (intro nm c h
               rcases h with h | h | h | h | h <;>
                 simp_all [fromExternalLibrary])

open MLRPipeline in
/-- Witness for C8 at concrete configurations: with strategy mean and
both flags set, the full five-step order; with strategy remove the
imputer is absent and the row with a missing feature is dropped. -/
theorem c8_create_pipeline_witness :
    (("imputer", SkComponent.simpleImputer "mean") ∈
      createPipelineSteps "mean" true true [0, 2]) ∧
    ((createPipelineSteps "mean" true true [0, 2]).map Prod.fst).Sublist
      ["pandas_to_numpy_converter", "imputer", "x_scaler", "pca", "final"] ∧
    removeMissingFeatures "remove"
        [[some 1, none], [some 2, some 3]] [5, 7] =
      ([[some 2, some 3]], [7]) := by
  have h := c8_create_pipeline "mean" true true [0, 2]
    [[some 1, none], [some 2, some 3]] [5, 7]
  have h2 := c8_create_pipeline "remove" true true [0, 2]
    [[some 1, none], [some 2, some 3]] [5, 7]
  refine ⟨h.2.2.2.1.mpr (by decide), h.1, ?_⟩
  rw [h2.2.2.2.2.2.2.2.2.1 rfl]
  decide

end ESMValTool

namespace ESMValTool

/-! ## diag_scripts/mlr/__init__.py : AdvancedTransformedTargetRegressor

Embedding of the variance/covariance handling of
AdvancedTransformedTargetRegressor.predict and of the keyword
handling in MLRModel.predict. Predictions are modelled as vectors
over a finite point index; the squeeze and reshape handling of the
source, which only adjusts array ranks, is outside the modelled
state. -/

namespace MLRPredict

/-- The fitted final regressor: its mean prediction, the standard
deviation it returns with return_std, and the covariance it returns
with return_cov. -/
structure Regressor (n : ℕ) where
  predictMean : Fin n → ℚ
  predictStd : Fin n → ℚ
  predictCovariance : Fin n → Fin n → ℚ

/-- The value AdvancedTransformedTargetRegressor.predict returns:
the prediction alone, or a pair with the variance, or a pair with
the covariance matrix. -/
inductive PredictResult (n : ℕ) where
  | plain (pred : Fin n → ℚ)
  | withVariance (pred : Fin n → ℚ) (err : Fin n → ℚ)
  | withCovariance (pred : Fin n → ℚ) (err : Fin n → Fin n → ℚ)

/-- AdvancedTransformedTargetRegressor.predict: with both return_var
and return_cov requested, return_cov is forced to False (after a
warning); the variance branch squares the returned standard
deviation; the error is multiplied by the square of the transformer
scale_ when that is not None. invTrans is the
transformer_.inverse_transform applied to the raw prediction. -/
def attrPredict {n : ℕ} (reg : Regressor n)
    (invTrans : (Fin n → ℚ) → Fin n → ℚ) (scale : Option ℚ)
    (returnVar returnCov : Bool) : PredictResult n :=
  let returnCov := if returnVar && returnCov then false else returnCov
  let predTrans := invTrans reg.predictMean
  if !(returnVar || returnCov) then
    .plain predTrans
  else if returnVar then
    let yErr := fun i => reg.predictStd i * reg.predictStd i
    match scale with
    | some s => .withVariance predTrans fun i => yErr i * s ^ 2
    | none => .withVariance predTrans yErr
  else
    match scale with
    | some s => .withCovariance predTrans fun i j =>
        reg.predictCovariance i j * s ^ 2
    | none => .withCovariance predTrans reg.predictCovariance

/-- The two keyword arguments MLRModel.predict inspects; none means
the keyword is absent from predict_kwargs. -/
structure PredictKwargs where
  return_var : Option Bool
  return_cov : Option Bool

/-- The keyword normalization of MLRModel.predict: when both
return_var and return_cov are present, return_cov is popped. -/
def processPredictKwargs (kw : PredictKwargs) : PredictKwargs :=
  if kw.return_var.isSome && kw.return_cov.isSome then
    { kw with return_cov := none }
  else kw

end MLRPredict

end ESMValTool

namespace ESMValTool

open MLRPredict in
/-- C10: requesting both variance and covariance from
AdvancedTransformedTargetRegressor.predict ignores the covariance
request: the result is the same as requesting only the variance,
namely the prediction together with the squared standard deviation
scaled by the square of the transformer scale; and MLRModel.predict
drops the return_cov keyword whenever both keywords are present. -/
theorem c10_predict_var_cov {n : ℕ} (reg : Regressor n)
    (invTrans : (Fin n → ℚ) → Fin n → ℚ) (s : ℚ) :
    (attrPredict reg invTrans (some s) true true =
      PredictResult.withVariance (invTrans reg.predictMean)
        (fun i => reg.predictStd i * reg.predictStd i * s ^ 2)) ∧
    (attrPredict reg invTrans (some s) true true =
      attrPredict reg invTrans (some s) true false) ∧
    (∀ kw : PredictKwargs, kw.return_var.isSome → kw.return_cov.isSome →
      (processPredictKwargs kw).return_cov = none ∧
      (processPredictKwargs kw).return_var = kw.return_var) := by
  refine ⟨rfl, rfl, fun kw h1 h2 => ?_⟩
  simp [processPredictKwargs, h1, h2]

open MLRPredict in
/-- Witness for C10 at a one-point prediction with scale 3 and both
keywords present. -/
theorem c10_predict_var_cov_witness :
    (attrPredict (n := 1) ⟨fun _ => 5, fun _ => 2, fun _ _ => 4⟩
        (fun p => p) (some 3) true true =
      PredictResult.withVariance (fun _ => 5) (fun _ => 2 * 2 * 3 ^ 2)) ∧
    ((processPredictKwargs ⟨some true, some true⟩).return_cov = none ∧
      (processPredictKwargs ⟨some true, some true⟩).return_var = some true) :=
  ⟨(c10_predict_var_cov (n := 1) ⟨fun _ => 5, fun _ => 2, fun _ _ => 4⟩
      (fun p => p) 3).1,
   (c10_predict_var_cov (n := 1) ⟨fun _ => 5, fun _ => 2, fun _ _ => 4⟩
      (fun p => p) 3).2.2 ⟨some true, some true⟩ rfl rfl⟩

end ESMValTool

namespace ESMValTool

/-! ## diag_scripts/mlr/models/__init__.py : input error propagation

Embedding of MLRModel._propagate_input_errors and of the part of
MLRModel._get_prediction_dict that stores its result. The LIME
explainer is a parameter giving, for each (imputed) input point, the
list of (feature index, local linear coefficient) pairs of
exp.local_exp[1]; interpreter.scaler.scale_ is the parameter scale.
A missing (NaN) error entry is Option-valued and np.nan_to_num maps
it to zero. -/

namespace MLRErrors

/-- np.nan_to_num on one scalar. -/
def nanToNum (v : Option ℚ) : ℚ := v.getD 0

/-- The inner _propagated_error of _propagate_input_errors: iterate
over the explanation pairs, skip categorical features, and accumulate
the square of the scaled error times the coefficient. -/
def propagatedError (explanation : List (ℕ × ℚ)) (xErr : ℕ → Option ℚ)
    (scale : ℕ → ℚ) (features : ℕ → String)
    (categorical : String → Bool) : ℚ :=
  explanation.foldl
    (fun acc p =>
      if categorical (features p.1) then acc
      else acc + (nanToNum (xErr p.1) / scale p.1 * p.2) ^ 2)
    0

/-- _propagate_input_errors: impute the prediction input, then map
the single-point propagation over the zipped points and errors
(pool.map over two argument lists). -/
def propagateInputErrors (impute : List (ℕ → ℚ) → List (ℕ → ℚ))
    (explain : (ℕ → ℚ) → List (ℕ × ℚ)) (scale : ℕ → ℚ)
    (features : ℕ → String) (categorical : String → Bool)
    (xPred : List (ℕ → ℚ)) (xErr : List (ℕ → Option ℚ)) : List ℚ :=
  ((impute xPred).zip xErr).map fun pe =>
    propagatedError (explain pe.1) pe.2 scale features categorical

/-- The part of _get_prediction_dict that assembles the output
mapping, in source insertion order: the main prediction under the
None key, then the optional MLR model error estimate, then the
propagated input error when propagate_input_errors is enabled and
error datasets were given, then the optional LIME importance and
residual entries. -/
def getPredictionDict (mainPred : List ℚ)
    (estimateErr : Option (String × List ℚ)) (propagateFlag : Bool)
    (impute : List (ℕ → ℚ) → List (ℕ → ℚ))
    (explain : (ℕ → ℚ) → List (ℕ × ℚ)) (scale : ℕ → ℚ)
    (features : ℕ → String) (categorical : String → Bool)
    (xPred : List (ℕ → ℚ)) (xErr : Option (List (ℕ → Option ℚ)))
    (limeEntry residualEntry : Option (List ℚ)) :
    List (Option String × List ℚ) :=
  [(none, mainPred)]
  ++ (match estimateErr with
      | some (errType, v) =>
        [(some ("squared_mlr_model_error_estim_" ++ errType), v)]
      | none => [])
  ++ (match propagateFlag, xErr with
      | true, some errs =>
        [(some "squared_propagated_input_error",
          propagateInputErrors impute explain scale features categorical
            xPred errs)]
      | _, _ => [])
  ++ (match limeEntry with
      | some v => [(some "lime", v)]
      | none => [])
  ++ (match residualEntry with
      | some v => [(some "residual", v)]
      | none => [])

theorem foldl_skip_eq_sum {α : Type} (c : α → Bool) (f : α → ℚ)
    (l : List α) (a : ℚ) :
    l.foldl (fun acc p => if c p then acc else acc + f p) a =
      a + ((l.filter fun p => !c p).map f).sum := by
  induction l generalizing a with
  | nil => simp
  | cons x t ih =>
    rw [List.foldl_cons, List.filter_cons]
    cases h : c x <;> simp [h, ih, add_assoc]

theorem propagatedError_eq_sum (explanation : List (ℕ × ℚ))
    (xErr : ℕ → Option ℚ) (scale : ℕ → ℚ) (features : ℕ → String)
    (categorical : String → Bool) :
    propagatedError explanation xErr scale features categorical =
      (((explanation.filter fun p => !categorical (features p.1)).map
        fun p => (nanToNum (xErr p.1) / scale p.1 * p.2) ^ 2)).sum := by
  rw [propagatedError, foldl_skip_eq_sum, zero_add]

end MLRErrors

end ESMValTool

namespace ESMValTool

open MLRErrors in
/-- C7: when prediction input error datasets are given and
propagate_input_errors is enabled, the prediction output contains a
squared_propagated_input_error entry, and each point of that entry is
the sum over the non-categorical features of the square of the input
error divided by the explainer scaling factor and multiplied by the
local linear coefficient of the feature. -/
theorem c7_propagated_input_error (mainPred : List ℚ)
    (estimateErr : Option (String × List ℚ))
    (impute : List (ℕ → ℚ) → List (ℕ → ℚ))
    (explain : (ℕ → ℚ) → List (ℕ × ℚ)) (scale : ℕ → ℚ)
    (features : ℕ → String) (categorical : String → Bool)
    (xPred : List (ℕ → ℚ)) (errs : List (ℕ → Option ℚ))
    (limeEntry residualEntry : Option (List ℚ)) :
    (some "squared_propagated_input_error",
      propagateInputErrors impute explain scale features categorical
        xPred errs) ∈
      getPredictionDict mainPred estimateErr true impute explain scale
        features categorical xPred (some errs) limeEntry residualEntry ∧
    propagateInputErrors impute explain scale features categorical
        xPred errs =
      ((impute xPred).zip errs).map fun pe =>
        ((((explain pe.1).filter fun p =>
            !categorical (features p.1)).map
          fun p => (nanToNum (pe.2 p.1) / scale p.1 * p.2) ^ 2)).sum := by
  constructor
  · rcases estimateErr with _ | ⟨t, v⟩ <;>
      rcases limeEntry with _ | l <;>
        rcases residualEntry with _ | r <;>
          simp [getPredictionDict]
  · rw [propagateInputErrors]
    exact List.map_congr_left fun pe _ => propagatedError_eq_sum _ _ _ _ _

end ESMValTool

namespace ESMValTool

/-! ## preprocessor/_derive/gtfgco2.py

Embedding of calculate_total_flux and DerivedVariable.calculate. A
two dimensional masked numpy array is a grid of values with a mask;
cube units are cf_units expressions, with multiplication the iris
units product. The claim presupposes both required cubes, so the
extract_strict calls are modelled by passing the fgco2 cube and the
cell-area cube directly. -/

namespace Gtfgco2

/-- A masked 2-D field: values and mask over lat times lon. -/
structure MaskedGrid (a b : ℕ) where
  val : Fin a → Fin b → ℚ
  mask : Fin a → Fin b → Bool

/-- A cf_units unit expression; mul is the Unit product used by
result.units = fgco2_cube.units * cube_area.units. -/
inductive UnitExpr where
  | base (sym : String)
  | mul (u v : UnitExpr)
deriving DecidableEq, Repr

/-- The fgco2 input cube: per-time masked fields plus units. -/
structure FluxCube (t a b : ℕ) where
  data : Fin t → MaskedGrid a b
  units : UnitExpr

/-- The areacello fx cube: cell areas plus units. -/
structure AreaCube (a b : ℕ) where
  data : Fin a → Fin b → ℚ
  units : UnitExpr

/-- A cube collapsed over latitude and longitude: one value per time
point. -/
structure CollapsedCube (t : ℕ) where
  data : Fin t → ℚ
  units : UnitExpr

/-- Elementwise product of a masked array with a plain array
(fgco2_cube[t].data * cube_area.data); numpy keeps the mask of the
masked operand. -/
def maskedMul {a b : ℕ} (g : MaskedGrid a b) (area : Fin a → Fin b → ℚ) :
    MaskedGrid a b :=
  ⟨fun i j => g.val i j * area i j, g.mask⟩

/-- np.ma.masked_where(cond, g): mask additionally where cond holds. -/
def maskedWhere {a b : ℕ} (cond : Fin a → Fin b → Bool)
    (g : MaskedGrid a b) : MaskedGrid a b :=
  ⟨g.val, fun i j => cond i j || g.mask i j⟩

/-- Masked-array sum: the sum of the unmasked entries. -/
def maskedSum {a b : ℕ} (g : MaskedGrid a b) : ℚ :=
  ∑ p : Fin a × Fin b, if g.mask p.1 p.2 then 0 else g.val p.1 p.2

/-- calculate_total_flux: for every time index, multiply the fgco2
field with the cell areas, mask where fgco2 is masked, and sum. -/
def calculate_total_flux {t a b : ℕ} (fgco2_cube : FluxCube t a b)
    (cube_area : AreaCube a b) : Fin t → ℚ :=
  fun k =>
    maskedSum (maskedWhere (fgco2_cube.data k).mask
      (maskedMul (fgco2_cube.data k) cube_area.data))

/-- The data of fgco2_cube.collapsed over latitude and longitude with
iris.analysis.MEAN: the mean of the unmasked cells at each time
(immediately overwritten by calculate, kept for fidelity to the
source). -/
def collapsedMeanData {t a b : ℕ} (fgco2_cube : FluxCube t a b) :
    Fin t → ℚ :=
  fun k =>
    maskedSum (fgco2_cube.data k) /
      ((Finset.univ.filter fun p : Fin a × Fin b =>
        (fgco2_cube.data k).mask p.1 p.2 = false).card : ℚ)

/-- DerivedVariable.calculate for gtfgco2: collapse the fgco2 cube
over latitude and longitude, set the units to the product of the
fgco2 units and the cell-area units, and replace the data with the
total flux. -/
def calculate {t a b : ℕ} (fgco2_cube : FluxCube t a b)
    (cube_area : AreaCube a b) : CollapsedCube t :=
  let total_flux := calculate_total_flux fgco2_cube cube_area
  let result : CollapsedCube t :=
    ⟨collapsedMeanData fgco2_cube, fgco2_cube.units⟩
  let result := { result with units := .mul fgco2_cube.units cube_area.units }
  { result with data := total_flux }

end Gtfgco2

end ESMValTool

namespace ESMValTool

open Gtfgco2 in
/-- C1: the derived gtfgco2 cube is collapsed over latitude and
longitude; at every time index its datum is the sum, over the grid
cells unmasked in fgco2 at that time, of the fgco2 value times the
cell area, and its units are the product of the fgco2 units and the
cell-area units. -/
theorem c1_gtfgco2_calculate {t a b : ℕ} (fgco2_cube : FluxCube t a b)
    (cube_area : AreaCube a b) :
    (∀ k : Fin t, (calculate fgco2_cube cube_area).data k =
      ∑ p ∈ Finset.univ.filter (fun p : Fin a × Fin b =>
          (fgco2_cube.data k).mask p.1 p.2 = false),
        (fgco2_cube.data k).val p.1 p.2 * cube_area.data p.1 p.2) ∧
    (calculate fgco2_cube cube_area).units =
      UnitExpr.mul fgco2_cube.units cube_area.units := by
  refine ⟨fun k => ?_, rfl⟩
  show maskedSum (maskedWhere (fgco2_cube.data k).mask
      (maskedMul (fgco2_cube.data k) cube_area.data)) = _
  rw [Finset.sum_filter, maskedSum]
  refine Finset.sum_congr rfl fun p _ => ?_
  rcases h : (fgco2_cube.data k).mask p.1 p.2 <;>
    simp [maskedWhere, maskedMul, h]

end ESMValTool

namespace ESMValTool

/-! ## Process-pool use across the sources

Structural embedding for the concurrency claim. Inspecting all 21
source files, exactly three functions mention a worker pool:
cmorization of cmorizers/obs/cmorize_obs_cds_era5_monthly.py (its
ProcessPoolExecutor block, including the executor.submit and
as_completed lines, is commented out: the body that executes is a
plain nested for loop calling _extract_variable directly), and
MLRModel._get_lime_feature_importance and
MLRModel._propagate_input_errors of
diag_scripts/mlr/models/__init__.py, which both construct a live
pathos ProcessPool and map a per-point function over the input
rows. -/

namespace PoolUse

/-- The functions of the source tree that mention a worker pool. -/
inductive RepoFunction where
  | cmorizationEra5Monthly
  | getLimeFeatureImportanceFn
  | propagateInputErrorsFn
deriving DecidableEq, Repr, Fintype

/-- Whether the executed body of the function constructs a process
pool, read off the (uncommented) source text. -/
def createsProcessPool : RepoFunction → Bool
  | .cmorizationEra5Monthly => false
  | .getLimeFeatureImportanceFn => true
  | .propagateInputErrorsFn => true

/-- The executed body of cmorization of the ERA5 monthly CMORizer:
for every configured variable and every matching input file, call
_extract_variable directly, in source order (the process-pool variant
is commented out). extract is the direct call on the
(short_name, file) pair. -/
def cmorization {α : Type} (varList : List (String × List String))
    (extract : String × String → α) : List α :=
  (varList.map fun v => v.2.map fun f => extract (v.1, f)).flatten

/-- MLRModel._get_lime_feature_importance: impute the input, then map
the per-point most-important-feature function over the rows (the
pool only parallelizes this map). -/
def getLimeFeatureImportance (impute : List (ℕ → ℚ) → List (ℕ → ℚ))
    (mostImportantFeature : (ℕ → ℚ) → ℕ) (xPred : List (ℕ → ℚ)) :
    List ℕ :=
  (impute xPred).map mostImportantFeature

end PoolUse

end ESMValTool

namespace ESMValTool

open PoolUse in
/-- C4 counterexample: it is false that the one process-pool use of
the repository is the ERA5 CMORizer; the executed cmorization body
creates no pool, while MLRModel._get_lime_feature_importance does. -/
theorem c4_pool_counterexample :
    createsProcessPool RepoFunction.cmorizationEra5Monthly = false ∧
    createsProcessPool RepoFunction.getLimeFeatureImportanceFn = true ∧
    ¬ (∀ f, createsProcessPool f = true ↔
        f = RepoFunction.cmorizationEra5Monthly) := by
  decide

open PoolUse MLRErrors in
/-- C4 amended: the repository is single-process batch scripting
except for two process-pool uses, MLRModel._get_lime_feature_importance
and MLRModel._propagate_input_errors, each of which only maps an
independent per-point function over the prediction input rows with no
coordination; the ERA5 CMORizer pool code is commented out and its
file-level jobs run sequentially, each a direct _extract_variable
call on its own (variable, file) pair in source order. -/
theorem c4_pool_sites {α : Type} (varList : List (String × List String))
    (extract : String × String → α)
    (impute : List (ℕ → ℚ) → List (ℕ → ℚ))
    (mostImportantFeature : (ℕ → ℚ) → ℕ)
    (explain : (ℕ → ℚ) → List (ℕ × ℚ)) (scale : ℕ → ℚ)
    (features : ℕ → String) (categorical : String → Bool)
    (xPred : List (ℕ → ℚ)) (errs : List (ℕ → Option ℚ)) :
    (∀ f, createsProcessPool f = true ↔
      (f = RepoFunction.getLimeFeatureImportanceFn ∨
       f = RepoFunction.propagateInputErrorsFn)) ∧
    cmorization varList extract =
      ((varList.map fun v => v.2.map fun f => (v.1, f)).flatten).map
        extract ∧
    getLimeFeatureImportance impute mostImportantFeature xPred =
      (impute xPred).map mostImportantFeature ∧
    propagateInputErrors impute explain scale features categorical
        xPred errs =
      ((impute xPred).zip errs).map fun pe =>
        propagatedError (explain pe.1) pe.2 scale features categorical := by
  refine ⟨by decide, ?_, rfl, rfl⟩
  rw [cmorization, List.map_flatten, List.map_map]
  congr 1
  refine List.map_congr_left fun v _ => ?_
  simp [List.map_map, Function.comp]

end ESMValTool

namespace ESMValTool

/-! ## cmorizers/obs/cmorize_obs_cds_era5_monthly.py : _extract_variable

Embedding of _extract_variable. The iris cube is modelled with the
fields the function touches: names, data dtype marker, data values
(time by latitude by longitude), units, and the latitude, longitude
and time coordinates. External iris behaviour is parameterized:
validStd says whether assigning a standard_name succeeds (the source
wraps the assignment in try/except ValueError and logs on failure,
keeping the old name), guessBounds is Coord.guess_bounds on the
points (which raises if bounds are already present), and conv gives
the conversion factor of convert_units between two unit strings (no
factor meaning the conversion raises). The source also leaves an
interactive IPython.embed() call before convert_units; it does not
modify the cube and is not part of the state modelled here. The
final cube[:, ::-1, ...] reverses the second (latitude) dimension of
the data together with the points and bounds rows of the latitude
coordinate. -/

namespace Era5

/-- A cube coordinate: name, points with their dtype marker, and
optional bounds. -/
structure Coord where
  var_name : String
  points : List ℚ
  pointsDtype : String
  bounds : Option (List (ℚ × ℚ))
deriving DecidableEq, Repr

/-- The cube state touched by _extract_variable. -/
structure ECube where
  var_name : String
  standard_name : Option String
  long_name : String
  dataDtype : String
  data : List (List (List ℚ))
  units : String
  lat : Coord
  lon : Coord
  time : Coord
deriving DecidableEq, Repr

/-- A CMOR table variable definition. -/
structure CmorDefinition where
  short_name : String
  standard_name : String
  long_name : String
  units : String
deriving DecidableEq, Repr

/-- The coordinate fixing loop body: cast the points to float64 and
guess bounds; Coord.guess_bounds raises ValueError when bounds
already exist. -/
def processCoord (guessBounds : List ℚ → List (ℚ × ℚ)) (c : Coord) :
    Except String Coord :=
  match c.bounds with
  | some _ => .error "coord already has bounds"
  | none =>
    .ok { c with pointsDtype := "float64", bounds := some (guessBounds c.points) }

/-- _extract_variable after loading the raw cube. -/
def extractVariable (validStd : String → Bool)
    (guessBounds : List ℚ → List (ℚ × ℚ))
    (conv : String → String → Option ℚ) (definition : CmorDefinition)
    (cube : ECube) : Except String ECube := do
  let cube := { cube with var_name := definition.short_name }
  let cube :=
    if validStd definition.standard_name then
      { cube with standard_name := some definition.standard_name }
    else
      cube
  let cube := { cube with long_name := definition.long_name }
  let cube := { cube with dataDtype := "float32" }
  let cube := { cube with
    lat := { cube.lat with var_name := "lat" },
    lon := { cube.lon with var_name := "lon" } }
  let latC ← processCoord guessBounds cube.lat
  let lonC ← processCoord guessBounds cube.lon
  let timeC ← processCoord guessBounds cube.time
  let cube := { cube with lat := latC, lon := lonC, time := timeC }
  match conv cube.units definition.units with
  | none => .error "unable to convert units"
  | some f =>
    let cube := { cube with
      data := cube.data.map (fun ts : List (List ℚ) =>
        ts.map (fun row : List ℚ => row.map (fun x : ℚ => f * x))),
      units := definition.units }
    .ok { cube with
      data := cube.data.map List.reverse,
      lat := { cube.lat with
        points := cube.lat.points.reverse,
        bounds := cube.lat.bounds.map List.reverse } }

end Era5

end ESMValTool

namespace ESMValTool

open Era5 in
/-- C3 counterexample: when iris rejects the standard_name of the
definition, _extract_variable catches the ValueError and keeps the
old standard_name, so the written cube does not carry the standard
name of the definition: concretely here the cube keeps standard_name
none while the definition says air_temperature. -/
theorem c3_standard_name_counterexample :
    (Era5.extractVariable (fun _ => false)
        (fun ps => ps.map fun p => (p - 1, p + 1)) (fun _ _ => some 1)
        ⟨"tas", "air_temperature", "Near-Surface Air Temperature", "K"⟩
        ⟨"t2m", none, "2 metre temperature", "float64",
          [[[1, 2], [3, 4]]], "K",
          ⟨"latitude", [10, 0], "float32", none⟩,
          ⟨"longitude", [0, 90], "float32", none⟩,
          ⟨"time", [0], "float32", none⟩⟩).map ECube.standard_name =
      Except.ok none := by
  rfl

open Era5 in
/-- C3 amended: for a variable whose definition standard_name iris
accepts, whose incoming coordinates are unbounded, whose units are
convertible, and whose incoming latitude is strictly decreasing (the
ERA5 grid layout), the cube written out carries the definition names,
float32 data, lat/lon coordinate names with float64 points and
guessed bounds, the definition units with the data scaled by the
conversion factor, and a strictly increasing latitude obtained by
reversing the latitude order. -/
theorem c3_extract_variable (validStd : String → Bool)
    (guessBounds : List ℚ → List (ℚ × ℚ))
    (conv : String → String → Option ℚ) (definition : CmorDefinition)
    (cube : ECube) (f : ℚ)
    (hstd : validStd definition.standard_name = true)
    (hlatb : cube.lat.bounds = none) (hlonb : cube.lon.bounds = none)
    (htimeb : cube.time.bounds = none)
    (hconv : conv cube.units definition.units = some f)
    (hdec : cube.lat.points.Chain' (· > ·)) :
    ∃ out, extractVariable validStd guessBounds conv definition cube =
        Except.ok out ∧
      out.var_name = definition.short_name ∧
      out.standard_name = some definition.standard_name ∧
      out.long_name = definition.long_name ∧
      out.dataDtype = "float32" ∧
      out.lat.var_name = "lat" ∧
      out.lon.var_name = "lon" ∧
      out.lat.pointsDtype = "float64" ∧
      out.lon.pointsDtype = "float64" ∧
      out.lat.bounds = some ((guessBounds cube.lat.points).reverse) ∧
      out.lon.bounds = some (guessBounds cube.lon.points) ∧
      out.units = definition.units ∧
      out.data = (cube.data.map (fun ts =>
        ts.map (fun row => row.map (fun x => f * x)))).map List.reverse ∧
      out.lat.points = cube.lat.points.reverse ∧
      out.lat.points.Chain' (· < ·) := by
  simp only [extractVariable, processCoord, hlatb, hlonb, htimeb, hstd,
    hconv, if_true, bind, Except.bind]
  refine ⟨_, rfl, rfl, rfl, rfl, rfl, rfl, rfl, rfl, rfl, rfl, rfl, rfl,
    rfl, rfl, ?_⟩
  show (cube.lat.points.reverse).Chain' (fun a b => a < b)
  rw [List.chain'_reverse]
  exact hdec

open Era5 in
/-- Witness for the amended C3 at a concrete two-by-two ERA5-like
cube with decreasing latitude, accepted standard name, unbounded
coordinates and conversion factor one half. -/
theorem c3_extract_variable_witness :
    ∃ out, Era5.extractVariable (fun _ => true)
        (fun ps => ps.map fun p => (p - 1, p + 1))
        (fun _ _ => some (1 / 2))
        ⟨"tas", "air_temperature", "Near-Surface Air Temperature", "K"⟩
        ⟨"t2m", none, "2 metre temperature", "float64",
          [[[1, 2], [3, 4]]], "K",
          ⟨"latitude", [10, 0], "float32", none⟩,
          ⟨"longitude", [0, 90], "float32", none⟩,
          ⟨"time", [0], "float32", none⟩⟩ =
      Except.ok out ∧
      out.var_name = "tas" ∧
      out.standard_name = some "air_temperature" ∧
      out.long_name = "Near-Surface Air Temperature" ∧
      out.dataDtype = "float32" ∧
      out.lat.var_name = "lat" ∧
      out.lon.var_name = "lon" ∧
      out.lat.pointsDtype = "float64" ∧
      out.lon.pointsDtype = "float64" ∧
      out.lat.bounds =
        some ((([10, 0] : List ℚ).map (fun p => (p - 1, p + 1))).reverse) ∧
      out.lon.bounds =
        some (([0, 90] : List ℚ).map fun p => (p - 1, p + 1)) ∧
      out.units = "K" ∧
      out.data = (([[[1, 2], [3, 4]]] :
          List (List (List ℚ))).map (fun ts =>
        ts.map (fun row => row.map (fun x => (1 / 2 : ℚ) * x)))).map
          List.reverse ∧
      out.lat.points = ([10, 0] : List ℚ).reverse ∧
      out.lat.points.Chain' (· < ·) :=
  c3_extract_variable (fun _ => true)
    (fun ps => ps.map fun p => (p - 1, p + 1)) (fun _ _ => some (1 / 2))
    ⟨"tas", "air_temperature", "Near-Surface Air Temperature", "K"⟩
    ⟨"t2m", none, "2 metre temperature", "float64",
      [[[1, 2], [3, 4]]], "K",
      ⟨"latitude", [10, 0], "float32", none⟩,
      ⟨"longitude", [0, 90], "float32", none⟩,
      ⟨"time", [0], "float32", none⟩⟩ (1 / 2)
    rfl rfl rfl rfl rfl
    (by rw [List.chain'_cons]
        exact ⟨by norm_num, List.chain'_singleton _⟩)

end ESMValTool

namespace ESMValTool

/-! ## diag_scripts/mlr/__init__.py : units_power

Embedding of units_power. A cf_units Unit is modelled by its origin
string and its no-unit / unknown flags; the expanding exponentiation
units ** power that the fallback branches call in the library is a
parameter. The Python string machinery the function uses is embedded
at character-list level: str.split() on whitespace, str.split on a
dot, the regex scans for -?\d+ and [A-Za-z], and the decimal
rendering of an int. -/

namespace UnitsPower

/-- Python round(): round half to even (used by units_power only to
test integrality of the power). -/
def pythonRound (q : ℚ) : ℤ :=
  let f := ⌊q⌋
  let r := q - f
  if r < 1 / 2 then f
  else if r > 1 / 2 then f + 1
  else if f % 2 = 0 then f else f + 1

theorem pythonRound_eq_self (q : ℚ) (h : q.den = 1) :
    (pythonRound q : ℚ) = q := by
  have hq : ((q.num : ℚ)) = q := (Rat.den_eq_one_iff q).mp h
  have hf : ⌊q⌋ = q.num := by
    conv_lhs => rw [← hq]
    exact Int.floor_intCast q.num
  rw [pythonRound]
  simp only [hf]
  rw [if_pos]
  · exact hq
  · rw [hq, sub_self]
    norm_num

theorem pythonRound_ne_self (q : ℚ) (h : q.den ≠ 1) :
    (pythonRound q : ℚ) ≠ q := by
  intro heq
  exact h (by rw [← heq]; exact Rat.den_intCast _)

end UnitsPower

namespace UnitsPower

theorem uint32_le_iff (a b : UInt32) : a ≤ b ↔ a.toNat ≤ b.toNat := Iff.rfl

theorem isDigit_false_of_isAlpha {c : Char} (h : c.isAlpha = true) :
    c.isDigit = false := by
  simp [Char.isAlpha, Char.isUpper, Char.isLower, Char.isDigit,
    uint32_le_iff, UInt32.size] at h ⊢
  omega

theorem isAlpha_false_of_isDigit {c : Char} (h : c.isDigit = true) :
    c.isAlpha = false := by
  simp [Char.isAlpha, Char.isUpper, Char.isLower, Char.isDigit,
    uint32_le_iff, UInt32.size] at h ⊢
  omega

theorem isWhitespace_false_of_isAlpha {c : Char} (h : c.isAlpha = true) :
    c.isWhitespace = false := by
  cases hc : c.isWhitespace
  · rfl
  · simp only [Char.isWhitespace, Bool.or_eq_true, decide_eq_true_eq] at hc
    rcases hc with ((rfl | rfl) | rfl) | rfl <;> exact absurd h (by decide)

theorem isWhitespace_false_of_isDigit {c : Char} (h : c.isDigit = true) :
    c.isWhitespace = false := by
  cases hc : c.isWhitespace
  · rfl
  · simp only [Char.isWhitespace, Bool.or_eq_true, decide_eq_true_eq] at hc
    rcases hc with ((rfl | rfl) | rfl) | rfl <;> exact absurd h (by decide)

theorem ne_dash_of_isAlpha {c : Char} (h : c.isAlpha = true) : c ≠ '-' := by
  rintro rfl
  exact absurd h (by decide)

theorem ne_dot_of_isAlpha {c : Char} (h : c.isAlpha = true) : c ≠ '.' := by
  rintro rfl
  exact absurd h (by decide)

/-- The decimal digit list of a natural number, most significant
first: the Python str() of a nonnegative int. -/
def natToChars (n : ℕ) : List Char :=
  if h : n < 10 then [Char.ofNat (48 + n)]
  else natToChars (n / 10) ++ [Char.ofNat (48 + n % 10)]
termination_by n
decreasing_by exact Nat.div_lt_self (by omega) (by omega)

/-- The Python str() of an int: decimal digits with a leading minus
sign for negative values. -/
def intToChars (i : ℤ) : List Char :=
  if i < 0 then '-' :: natToChars i.natAbs else natToChars i.toNat

theorem toNat_digitChar {k : ℕ} (h : k < 10) :
    (Char.ofNat (48 + k)).toNat = 48 + k := by
  interval_cases k <;> decide

theorem isDigit_digitChar {k : ℕ} (h : k < 10) :
    (Char.ofNat (48 + k)).isDigit = true := by
  interval_cases k <;> decide

theorem natToChars_ne_nil (n : ℕ) : natToChars n ≠ [] := by
  rw [natToChars]
  split
  · simp
  · simp

theorem mem_natToChars_isDigit (n : ℕ) :
    ∀ c ∈ natToChars n, c.isDigit = true := by
  induction n using Nat.strong_induction_on with
  | _ n ih =>
    rw [natToChars]
    split
    · intro c hc
      rw [List.mem_singleton] at hc
      subst hc
      exact isDigit_digitChar (by omega)
    · intro c hc
      rw [List.mem_append] at hc
      rcases hc with hc | hc
      · exact ih (n / 10) (Nat.div_lt_self (by omega) (by omega)) c hc
      · rw [List.mem_singleton] at hc
        subst hc
        exact isDigit_digitChar (Nat.mod_lt _ (by omega))

/-- The digit-run parser of units_power, int() applied to the match
of the regex: take the leading digits and read them in base 10. -/
def readNatDigits (l : List Char) : ℕ :=
  (l.takeWhile Char.isDigit).foldl (fun acc c => 10 * acc + (c.toNat - 48)) 0

theorem foldl_natToChars (n : ℕ) :
    ∀ acc, (natToChars n).foldl (fun a c => 10 * a + (c.toNat - 48)) acc =
      acc * 10 ^ (natToChars n).length + n := by
  induction n using Nat.strong_induction_on with
  | _ n ih =>
    intro acc
    rw [natToChars]
    split
    · rename_i h
      simp [toNat_digitChar h]
      omega
    · rename_i h
      rw [List.foldl_append, List.length_append, ih (n / 10)
        (Nat.div_lt_self (by omega) (by omega))]
      simp only [List.foldl_cons, List.foldl_nil, List.length_cons,
        List.length_nil]
      rw [toNat_digitChar (Nat.mod_lt _ (by omega))]
      rw [pow_succ]
      have h48 : 48 + n % 10 - 48 = n % 10 := by omega
      rw [h48]
      calc 10 * (acc * 10 ^ (natToChars (n / 10)).length + n / 10) + n % 10
          = acc * (10 ^ (natToChars (n / 10)).length * 10) +
            (10 * (n / 10) + n % 10) := by ring
        _ = acc * (10 ^ (natToChars (n / 10)).length * 10) + n := by
            rw [Nat.div_add_mod]

theorem readNatDigits_natToChars (n : ℕ) :
    readNatDigits (natToChars n) = n := by
  rw [readNatDigits, List.takeWhile_eq_self_iff.mpr (mem_natToChars_isDigit n),
    foldl_natToChars]
  simp

end UnitsPower

namespace UnitsPower

/-- The first match of the regex -?\d+ in the element, as an
integer: scan left to right, a digit starts a maximal digit run, a
minus sign immediately followed by a digit starts a negative run. -/
def firstSignedInt : List Char → Option ℤ
  | [] => none
  | c :: rest =>
    if c.isDigit then some ((readNatDigits (c :: rest) : ℤ))
    else if c = '-' then
      match rest.head? with
      | some d =>
        if d.isDigit then some (-(readNatDigits rest : ℤ))
        else firstSignedInt rest
      | none => none
    else firstSignedInt rest

/-- All letter characters of the element, joined: the regex findall
of [A-Za-z]. -/
def elemLetters (l : List Char) : List Char := l.filter Char.isAlpha

/-- One element of the new units list: if the element ends in a
digit, the letters followed by the first matched integer times the
power, otherwise the element followed by the power. -/
def elemPow (p : ℤ) (elem : List Char) : List Char :=
  if elem.getLast?.elim false Char.isDigit then
    elemLetters elem ++ intToChars ((firstSignedInt elem).getD 0 * p)
  else elem ++ intToChars p

/-- Python str.split() with no separator: split on whitespace runs,
dropping empty fragments. -/
def pySplitWSAux : List Char → List Char → List (List Char)
  | [], acc => if acc.isEmpty then [] else [acc.reverse]
  | c :: rest, acc =>
    if c.isWhitespace then
      if acc.isEmpty then pySplitWSAux rest []
      else acc.reverse :: pySplitWSAux rest []
    else pySplitWSAux rest (c :: acc)

def pySplitWS (l : List Char) : List (List Char) := pySplitWSAux l []

/-- Python str.split(s) on a dot: split at every dot, keeping empty
fragments. -/
def pySplitDotAux : List Char → List Char → List (List Char)
  | [], acc => [acc.reverse]
  | c :: rest, acc =>
    if c = '.' then acc.reverse :: pySplitDotAux rest []
    else pySplitDotAux rest (c :: acc)

def pySplitDot (l : List Char) : List (List Char) := pySplitDotAux l []

theorem intToChars_ne_nil (e : ℤ) : intToChars e ≠ [] := by
  rw [intToChars]
  split
  · simp
  · exact natToChars_ne_nil _

theorem head_isDigit_natToChars (n : ℕ) :
    (natToChars n).head?.elim false Char.isDigit = true := by
  cases h : natToChars n with
  | nil => exact absurd h (natToChars_ne_nil n)
  | cons c t =>
    have : c ∈ natToChars n := by rw [h]; exact List.mem_cons_self c t
    simp [mem_natToChars_isDigit n c this]

theorem firstSignedInt_skip_alpha (s t : List Char)
    (hs : ∀ c ∈ s, c.isAlpha = true) :
    firstSignedInt (s ++ t) = firstSignedInt t := by
  induction s with
  | nil => rfl
  | cons a s ih =>
    have ha : a.isAlpha = true := hs a (List.mem_cons_self a s)
    rw [List.cons_append, firstSignedInt]
    rw [isDigit_false_of_isAlpha ha]
    simp only [Bool.false_eq_true, if_false]
    rw [if_neg (ne_dash_of_isAlpha ha)]
    exact ih fun c hc => hs c (List.mem_cons_of_mem a hc)

theorem firstSignedInt_intToChars (e : ℤ) :
    firstSignedInt (intToChars e) = some e := by
  rw [intToChars]
  split
  · rename_i he
    rw [firstSignedInt]
    have hd : ('-').isDigit = false := by decide
    rw [hd]
    simp only [Bool.false_eq_true, if_false, if_pos rfl]
    cases h : natToChars e.natAbs with
    | nil => exact absurd h (natToChars_ne_nil _)
    | cons c t =>
      have hc : c.isDigit = true := by
        refine mem_natToChars_isDigit e.natAbs c ?_
        rw [h]
        exact List.mem_cons_self c t
      rw [List.head?_cons]
      simp only [hc, if_true]
      rw [← h, readNatDigits_natToChars]
      congr 1
      omega
  · rename_i he
    cases h : natToChars e.toNat with
    | nil => exact absurd h (natToChars_ne_nil _)
    | cons c t =>
      have hc : c.isDigit = true := by
        refine mem_natToChars_isDigit e.toNat c ?_
        rw [h]
        exact List.mem_cons_self c t
      rw [firstSignedInt, hc]
      simp only [if_true]
      rw [← h, readNatDigits_natToChars]
      congr 1
      omega

end UnitsPower

namespace UnitsPower

theorem mem_intToChars {c : Char} {e : ℤ} (h : c ∈ intToChars e) :
    c = '-' ∨ c.isDigit = true := by
  rw [intToChars] at h
  split at h
  · rcases List.mem_cons.mp h with rfl | h
    · exact Or.inl rfl
    · exact Or.inr (mem_natToChars_isDigit _ c h)
  · exact Or.inr (mem_natToChars_isDigit _ c h)

theorem isAlpha_false_of_mem_intToChars {c : Char} {e : ℤ}
    (h : c ∈ intToChars e) : c.isAlpha = false := by
  rcases mem_intToChars h with rfl | hd
  · decide
  · exact isAlpha_false_of_isDigit hd

theorem isWhitespace_false_of_mem_intToChars {c : Char} {e : ℤ}
    (h : c ∈ intToChars e) : c.isWhitespace = false := by
  rcases mem_intToChars h with rfl | hd
  · decide
  · exact isWhitespace_false_of_isDigit hd

theorem ne_dot_of_mem_intToChars {c : Char} {e : ℤ}
    (h : c ∈ intToChars e) : c ≠ '.' := by
  rcases mem_intToChars h with rfl | hd
  · decide
  · rintro rfl
    exact absurd hd (by decide)

theorem elemLetters_alpha_append (s : List Char) (e : ℤ)
    (hs : ∀ c ∈ s, c.isAlpha = true) :
    elemLetters (s ++ intToChars e) = s := by
  rw [elemLetters, List.filter_append]
  rw [List.filter_eq_self.mpr hs]
  rw [List.filter_eq_nil_iff.mpr fun c hc =>
    by simp [isAlpha_false_of_mem_intToChars hc]]
  exact List.append_nil s

theorem getLast_isDigit_intToChars (e : ℤ) :
    (intToChars e).getLast?.elim false Char.isDigit = true := by
  have key : ∀ n : ℕ, (natToChars n).getLast?.elim false Char.isDigit = true := by
    intro n
    rcases List.eq_nil_or_concat (natToChars n) with h | ⟨l, a, h⟩
    · exact absurd h (natToChars_ne_nil n)
    · rw [h, List.concat_eq_append, List.getLast?_concat]
      have : a ∈ natToChars n := by
        rw [h, List.concat_eq_append]
        exact List.mem_concat_self l a
      simp [mem_natToChars_isDigit n a this]
  rw [intToChars]
  split
  · rw [show ('-' :: natToChars e.natAbs) = ['-'] ++ natToChars e.natAbs from rfl,
      List.getLast?_append_of_ne_nil _ (natToChars_ne_nil _)]
    exact key _
  · exact key _

end UnitsPower

namespace UnitsPower

theorem pySplitWSAux_nonws (w : List Char)
    (hw : ∀ c ∈ w, c.isWhitespace = false) (rest acc : List Char) :
    pySplitWSAux (w ++ rest) acc = pySplitWSAux rest (w.reverse ++ acc) := by
  induction w generalizing acc with
  | nil => simp
  | cons a w ih =>
    rw [List.cons_append, pySplitWSAux,
      hw a (List.mem_cons_self a w)]
    simp only [Bool.false_eq_true, if_false]
    rw [ih (fun c hc => hw c (List.mem_cons_of_mem a hc)) (a :: acc)]
    simp

theorem pySplitWSAux_ws_cons (rest : List Char) (acc : List Char)
    (hacc : acc ≠ []) :
    pySplitWSAux (' ' :: rest) acc = acc.reverse :: pySplitWSAux rest [] := by
  rw [pySplitWSAux]
  simp only [show (' ').isWhitespace = true from rfl, if_true]
  rw [if_neg (by simpa [List.isEmpty_iff] using hacc)]

theorem pySplitWS_intercalate (parts : List (List Char))
    (h : ∀ w ∈ parts, w ≠ [] ∧ ∀ c ∈ w, c.isWhitespace = false) :
    pySplitWS (List.intercalate [' '] parts) = parts := by
  induction parts with
  | nil => rfl
  | cons w ws ih =>
    obtain ⟨hw, hwc⟩ := h w (List.mem_cons_self w ws)
    cases ws with
    | nil =>
      show pySplitWSAux (List.intercalate [' '] [w]) [] = [w]
      have hone : List.intercalate [' '] [w] = w := by
        simp [List.intercalate, List.intersperse]
      rw [hone]
      have haux := pySplitWSAux_nonws w hwc [] []
      rw [List.append_nil] at haux
      rw [haux, pySplitWSAux]
      rw [if_neg (by simpa [List.isEmpty_iff] using
        (show w.reverse ++ [] ≠ [] by simpa using hw))]
      simp
    | cons w2 ws2 =>
      have hstep : List.intercalate [' '] (w :: w2 :: ws2) =
          w ++ (' ' :: List.intercalate [' '] (w2 :: ws2)) := by
        simp [List.intercalate, List.intersperse]
      show pySplitWSAux _ [] = _
      rw [hstep, pySplitWSAux_nonws w hwc]
      rw [List.append_nil]
      rw [pySplitWSAux_ws_cons _ _ (by simpa using hw)]
      rw [List.reverse_reverse]
      exact congrArg (w :: ·)
        (ih fun u hu => h u (List.mem_cons_of_mem w hu))

theorem pySplitDotAux_no_dot (w : List Char) (h : ∀ c ∈ w, c ≠ '.') :
    ∀ acc, pySplitDotAux w acc = [acc.reverse ++ w] := by
  induction w with
  | nil => intro acc; simp [pySplitDotAux]
  | cons a w ih =>
    intro acc
    rw [pySplitDotAux, if_neg (h a (List.mem_cons_self a w))]
    rw [ih (fun c hc => h c (List.mem_cons_of_mem a hc)) (a :: acc)]
    simp

theorem pySplitDot_no_dot (w : List Char) (h : ∀ c ∈ w, c ≠ '.') :
    pySplitDot w = [w] := by
  rw [pySplitDot, pySplitDotAux_no_dot w h []]
  rfl

end UnitsPower

namespace UnitsPower

/-- The state of a cf_units Unit that units_power inspects: the
origin string (None when not given) and the no-unit / unknown
flags. -/
structure CFUnit where
  origin : Option String
  isNoUnit : Bool
  isUnknown : Bool
deriving DecidableEq, Repr

/-- The Python exceptions units_power can raise. -/
inductive PyError where
  | typeError
  | indexError
deriving DecidableEq, Repr

/-- units_power of diag_scripts/mlr/__init__.py. The expanding
exponentiation units ** power of cf_units, used by the fallback
branches, is the parameter starPow; power is an integer-valued
rational unless the round guard raises, and the integer used to
scale the exponents is its numerator. An all-whitespace origin makes
origin.split()[0] raise IndexError. -/
def unitsPower (starPow : CFUnit → ℚ → CFUnit) (units : CFUnit)
    (power : ℚ) : Except PyError CFUnit :=
  if (pythonRound power : ℚ) ≠ power then .error .typeError
  else if units.isNoUnit || units.isUnknown then .ok units
  else
    match units.origin with
    | none => .ok (starPow units power)
    | some origin =>
      match pySplitWS origin.data with
      | [] => .error .indexError
      | [] :: _ => .error .indexError
      | (c :: _) :: _ =>
        if c.isDigit then .ok (starPow units power)
        else
          let p : ℤ := power.num
          let newUnits := ((pySplitWS origin.data).map
            (fun w => (pySplitDot w).map (elemPow p))).flatten
          .ok ⟨some (String.mk (List.intercalate [' '] newUnits)),
            false, false⟩

/-- A units element rendered as characters: a symbol, optionally
followed by a decimal exponent. -/
def renderElem : List Char × Option ℤ → List Char
  | (s, none) => s
  | (s, some e) => s ++ intToChars e

/-- A product of symbols as an origin string. -/
def renderOrigin (l : List (List Char × Option ℤ)) : List Char :=
  List.intercalate [' '] (l.map renderElem)

/-- Multiplying the exponent of one symbol by the power (a bare
symbol has exponent one). -/
def symPow (p : ℤ) : List Char × Option ℤ → List Char × Option ℤ
  | (s, e) => (s, some (e.getD 1 * p))

/-- A well-formed symbol: a nonempty word of letters. -/
def WFSym (pr : List Char × Option ℤ) : Prop :=
  pr.1 ≠ [] ∧ ∀ c ∈ pr.1, c.isAlpha = true

theorem elemPow_renderElem (p : ℤ) (pr : List Char × Option ℤ)
    (h : WFSym pr) : elemPow p (renderElem pr) = renderElem (symPow p pr) := by
  obtain ⟨s, e⟩ := pr
  obtain ⟨hne, halpha⟩ := h
  cases e with
  | none =>
    rw [renderElem, elemPow]
    rw [if_neg ?_]
    · rw [symPow, renderElem, Option.getD_none, one_mul]
    · rcases List.eq_nil_or_concat s with rfl | ⟨l, a, hs⟩
      · exact absurd rfl hne
      · rw [hs, List.concat_eq_append, List.getLast?_concat]
        have ha : a.isAlpha = true := by
          refine halpha a ?_
          rw [hs, List.concat_eq_append]
          exact List.mem_concat_self l a
        simp [isDigit_false_of_isAlpha ha]
  | some e =>
    rw [renderElem, elemPow]
    rw [if_pos ?_]
    · rw [elemLetters_alpha_append s e halpha]
      rw [firstSignedInt_skip_alpha s _ halpha, firstSignedInt_intToChars]
      rw [symPow, renderElem, Option.getD_some, Option.getD_some]
    · rw [List.getLast?_append_of_ne_nil _ (intToChars_ne_nil e)]
      exact getLast_isDigit_intToChars e

end UnitsPower

namespace UnitsPower

theorem renderElem_ne_nil (pr : List Char × Option ℤ) (h : WFSym pr) :
    renderElem pr ≠ [] := by
  obtain ⟨s, e⟩ := pr
  cases e with
  | none => exact h.1
  | some e =>
    rw [renderElem]
    intro hx
    exact intToChars_ne_nil e (List.append_eq_nil.mp hx).2

theorem renderElem_no_ws (pr : List Char × Option ℤ) (h : WFSym pr) :
    ∀ c ∈ renderElem pr, c.isWhitespace = false := by
  obtain ⟨s, e⟩ := pr
  intro c hc
  cases e with
  | none => exact isWhitespace_false_of_isAlpha (h.2 c hc)
  | some e =>
    rw [renderElem, List.mem_append] at hc
    rcases hc with hc | hc
    · exact isWhitespace_false_of_isAlpha (h.2 c hc)
    · exact isWhitespace_false_of_mem_intToChars hc

theorem renderElem_no_dot (pr : List Char × Option ℤ) (h : WFSym pr) :
    ∀ c ∈ renderElem pr, c ≠ '.' := by
  obtain ⟨s, e⟩ := pr
  intro c hc
  cases e with
  | none => exact ne_dot_of_isAlpha (h.2 c hc)
  | some e =>
    rw [renderElem, List.mem_append] at hc
    rcases hc with hc | hc
    · exact ne_dot_of_isAlpha (h.2 c hc)
    · exact ne_dot_of_mem_intToChars hc

theorem flatten_map_singleton {α β : Type} (f : α → β) (l : List α) :
    (l.map fun a => [f a]).flatten = l.map f := by
  induction l <;> simp_all

theorem newUnits_eq (p : ℤ) (L : List (List Char × Option ℤ))
    (hwf : ∀ pr ∈ L, WFSym pr) :
    ((L.map renderElem).map (fun w => (pySplitDot w).map (elemPow p))).flatten =
      (L.map (symPow p)).map renderElem := by
  have hdots : (L.map renderElem).map
      (fun w => (pySplitDot w).map (elemPow p)) =
      (L.map renderElem).map (fun w => [elemPow p w]) := by
    refine List.map_congr_left fun w hw => ?_
    obtain ⟨pr2, hpr2, rfl⟩ := List.mem_map.mp hw
    rw [pySplitDot_no_dot _ (renderElem_no_dot pr2 (hwf pr2 hpr2))]
    rfl
  rw [hdots, flatten_map_singleton, List.map_map, List.map_map]
  refine List.map_congr_left fun pr2 hpr2 => ?_
  rw [Function.comp_apply, Function.comp_apply]
  exact elemPow_renderElem p pr2 (hwf pr2 hpr2)

theorem unitsPower_symbolic (starPow : CFUnit → ℚ → CFUnit)
    (l : List (List Char × Option ℤ)) (q : ℚ) (hq : q.den = 1)
    (hl : l ≠ []) (hwf : ∀ pr ∈ l, WFSym pr) :
    unitsPower starPow ⟨some (String.mk (renderOrigin l)), false, false⟩ q =
      .ok ⟨some (String.mk (renderOrigin (l.map (symPow q.num)))),
        false, false⟩ := by
  have hsplit : pySplitWS (renderOrigin l) = l.map renderElem :=
    pySplitWS_intercalate (l.map renderElem) (by
      intro w hw
      obtain ⟨pr, hpr, rfl⟩ := List.mem_map.mp hw
      exact ⟨renderElem_ne_nil pr (hwf pr hpr),
        renderElem_no_ws pr (hwf pr hpr)⟩)
  rw [unitsPower]
  rw [if_neg (not_ne_iff.mpr (pythonRound_eq_self q hq))]
  simp only [Bool.or_self, Bool.false_eq_true, if_false]
  show (match pySplitWS (renderOrigin l) with
    | [] => Except.error PyError.indexError
    | [] :: _ => Except.error PyError.indexError
    | (c :: _) :: _ =>
      if c.isDigit then Except.ok (starPow
        ⟨some (String.mk (renderOrigin l)), false, false⟩ q)
      else
        Except.ok ⟨some (String.mk (List.intercalate [' ']
          (((pySplitWS (renderOrigin l)).map
            (fun w => (pySplitDot w).map (elemPow q.num))).flatten))),
          false, false⟩) = _
  rw [hsplit]
  cases l with
  | nil => exact absurd rfl hl
  | cons pr l =>
    obtain ⟨s, e⟩ := pr
    have hwfh := hwf (s, e) (List.mem_cons_self _ _)
    obtain ⟨hne, halpha⟩ := hwfh
    cases s with
    | nil => exact absurd rfl hne
    | cons c s =>
      have hc : c.isAlpha = true := halpha c (List.mem_cons_self c s)
      cases e with
      | none =>
        show (if c.isDigit = true then _ else _) = _
        rw [if_neg (by simp [isDigit_false_of_isAlpha hc])]
        rw [newUnits_eq q.num _ hwf]
        rfl
      | some e0 =>
        show (if c.isDigit = true then _ else _) = _
        rw [if_neg (by simp [isDigit_false_of_isAlpha hc])]
        rw [newUnits_eq q.num _ hwf]
        rfl

end UnitsPower

namespace UnitsPower

theorem unitsPower_typeError (starPow : CFUnit → ℚ → CFUnit) (u : CFUnit)
    (q : ℚ) (h : q.den ≠ 1) :
    unitsPower starPow u q = .error .typeError := by
  rw [unitsPower, if_pos (pythonRound_ne_self q h)]

theorem unitsPower_noUnit (starPow : CFUnit → ℚ → CFUnit) (u : CFUnit)
    (q : ℚ) (hq : q.den = 1) (hu : (u.isNoUnit || u.isUnknown) = true) :
    unitsPower starPow u q = .ok u := by
  rw [unitsPower, if_neg (not_ne_iff.mpr (pythonRound_eq_self q hq)), if_pos hu]

end UnitsPower

/-- C9: units_power raises TypeError for every power of non-integral
value; for no-unit or unknown units it returns the input units
unchanged; and for units whose origin is a product of letter symbols
with optional integer exponents, it returns the units in which every
symbol exponent is multiplied by the given power, preserving the
symbols. -/
theorem c9_units_power :
    (∀ (starPow : UnitsPower.CFUnit → ℚ → UnitsPower.CFUnit) u q,
      q.den ≠ 1 →
        UnitsPower.unitsPower starPow u q = .error .typeError) ∧
    (∀ (starPow : UnitsPower.CFUnit → ℚ → UnitsPower.CFUnit) u q,
      q.den = 1 → (u.isNoUnit || u.isUnknown) = true →
        UnitsPower.unitsPower starPow u q = .ok u) ∧
    (∀ (starPow : UnitsPower.CFUnit → ℚ → UnitsPower.CFUnit)
      (l : List (List Char × Option ℤ)) (q : ℚ),
      q.den = 1 → l ≠ [] → (∀ pr ∈ l, UnitsPower.WFSym pr) →
        UnitsPower.unitsPower starPow
          ⟨some (String.mk (UnitsPower.renderOrigin l)), false, false⟩ q =
        .ok ⟨some (String.mk (UnitsPower.renderOrigin
          (l.map (UnitsPower.symPow q.num)))), false, false⟩) :=
  ⟨UnitsPower.unitsPower_typeError, UnitsPower.unitsPower_noUnit,
   UnitsPower.unitsPower_symbolic⟩

/-- Witness for C9: power 5/2 raises TypeError, a no-unit unit is
returned unchanged at power 2, and J at power 2 gives J2. -/
theorem c9_units_power_witness :
    UnitsPower.unitsPower (fun u _ => u) ⟨some "J", false, false⟩
        (Rat.mk' 5 2) = .error .typeError ∧
    UnitsPower.unitsPower (fun u _ => u) ⟨none, true, false⟩ 2 =
      .ok ⟨none, true, false⟩ ∧
    UnitsPower.unitsPower (fun u _ => u) ⟨some "J", false, false⟩ 2 =
      .ok ⟨some "J2", false, false⟩ :=
  ⟨c9_units_power.1 _ _ _ (by decide),
   c9_units_power.2.1 _ _ _ (by decide) rfl,
   by
     have h := c9_units_power.2.2 (fun u _ => u) [(['J'], none)] 2 rfl
       (List.cons_ne_nil _ _)
       (by
         intro pr hpr
         rcases List.mem_singleton.mp hpr with rfl
         exact ⟨List.cons_ne_nil _ _, by decide⟩)
     have hv : UnitsPower.renderOrigin
         (List.map (UnitsPower.symPow (Rat.num 2)) [(['J'], none)]) =
         ['J', '2'] := by
       simp [UnitsPower.renderOrigin, UnitsPower.symPow,
         UnitsPower.renderElem, UnitsPower.intToChars,
         UnitsPower.natToChars, List.intercalate, List.intersperse]
     rw [hv] at h
     exact h⟩

end ESMValTool
